import Mathlib

/-!
Shallow embedding of `src/dashboard.py` (a stock-portfolio dashboard).

Modelling conventions:
* The Python dict `st.session_state.holdings` is an insertion-ordered
  association list `List (String × Position)`; updating an existing key
  replaces the value in place (keeping its position), inserting a new key
  appends at the end — exactly Python 3.7+ dict semantics.
* Prices are rationals `ℚ` (the Python floats, with exact arithmetic).
* pandas rolling means carry `NaN` in their leading entries; we model a
  SMA series as `List (Option ℚ)` with `none` for `NaN`.  IEEE comparisons
  against `NaN` are false, modelled by `nanLe` / `nanLt` below.
* `yfinance` calls are modelled by explicit inputs: a current-price oracle
  `String → Option ℚ` (`None` on failure, as `get_current_price` returns),
  and for `generate_signals` the fetched history as
  `Except String (List ℚ)` (`.error` = the fetch raised, caught by the
  surrounding `try`).
* `datetime.strptime(d, '%Y-%m-%d')` validation is modelled by an abstract
  predicate `parseOk : String → Bool`, and `datetime.today()...` by an
  abstract `today : String`, both passed explicitly.
-/

namespace Dashboard

/-- One holding, as stored in the `holdings` dict of `dashboard.py`
(`{'shares': ..., 'buy_price': ..., 'buy_date': ...}`). -/
structure Position where
  shares : Int
  buy_price : ℚ
  buy_date : String
  deriving DecidableEq, Repr

/-- The `holdings` dict: insertion-ordered map from ticker to position. -/
abbrev Holdings := List (String × Position)

/-- Python dict assignment `d[k] = v`: replace in place if the key exists,
else append at the end. -/
def dictInsert (h : Holdings) (k : String) (v : Position) : Holdings :=
  match h with
  | [] => [(k, v)]
  | (k', v') :: rest =>
    if k' = k then (k, v) :: rest else (k', v') :: dictInsert rest k v

/-- Python `del d[k]` (for a dict, the key occurs at most once). -/
def dictRemove (h : Holdings) (k : String) : Holdings :=
  match h with
  | [] => []
  | (k', v') :: rest =>
    if k' = k then rest else (k', v') :: dictRemove rest k

/-- Python `k in d`. -/
def dictMem (h : Holdings) (k : String) : Bool :=
  h.any (fun p => p.1 = k)

/-- The validation failures `add_stock` can raise (`ValueError`s in the
Python source, lines 28–35). -/
inductive AddError where
  | InvalidShares
  | InvalidPrice
  | InvalidDate
  deriving DecidableEq, Repr

/-- `StockPortfolio.add_stock` (dashboard.py lines 23–45), as a function
from the old holdings to either a validation failure (the caught
`ValueError`, in which case the dict was never touched) or the new
holdings.  `today` and `parseOk` model `datetime.today()` and
`datetime.strptime` as explicit inputs. -/
def add_stock (today : String) (parseOk : String → Bool) (h : Holdings)
    (ticker : String) (shares : Int) (buy_price : ℚ)
    (buy_date : Option String) : Except AddError Holdings :=
  let t := ticker.toUpper.trim
  if shares ≤ 0 then .error .InvalidShares
  else if buy_price ≤ 0 then .error .InvalidPrice
  else
    match buy_date with
    | none => .ok (dictInsert h t ⟨shares, buy_price, today⟩)
    | some d =>
      if parseOk d then .ok (dictInsert h t ⟨shares, buy_price, d⟩)
      else .error .InvalidDate

/-- `add_stock` as the caller observes it: the holdings after the call and
the returned boolean (`True` on success, `False` after a caught error). -/
def add_stock_run (today : String) (parseOk : String → Bool) (h : Holdings)
    (ticker : String) (shares : Int) (buy_price : ℚ)
    (buy_date : Option String) : Holdings × Bool :=
  match add_stock today parseOk h ticker shares buy_price buy_date with
  | .ok h' => (h', true)
  | .error _ => (h, false)

/-- `StockPortfolio.remove_stock` (dashboard.py lines 47–56): normalize the
ticker, delete if present, return whether it existed. -/
def remove_stock (h : Holdings) (ticker : String) : Holdings × Bool :=
  let t := ticker.toUpper.trim
  if dictMem h t then (dictRemove h t, true) else (h, false)

/-- The spec's `listPositions()`: the holdings in their deterministic
(insertion) order — the order every loop in `dashboard.py` iterates the
dict in. -/
def list_positions (h : Holdings) : Holdings := h

/-- One row of the valuation table built by `calculate_portfolio_value`
(the dict appended to `data`, dashboard.py lines 83–90). -/
structure Row where
  ticker : String
  shares : Int
  buy_price : ℚ
  current_price : ℚ
  value : ℚ
  profit : ℚ
  deriving DecidableEq, Repr

/-- `StockPortfolio.calculate_portfolio_value` (dashboard.py lines 72–92):
loop over the holdings in order; for each ticker ask the price oracle
(`get_current_price`, which returns `None` on any fetch failure); skip
`None`; otherwise accumulate `value = shares * price` and
`profit = (price - buy_price) * shares` into the running totals and append
a row.  Returns `(total_value, total_profit, rows)`. -/
def calculate_portfolio_value (priceOf : String → Option ℚ) :
    Holdings → ℚ × ℚ × List Row
  | [] => (0, 0, [])
  | (t, info) :: rest =>
    let r := calculate_portfolio_value priceOf rest
    match priceOf t with
    | none => r
    | some p =>
      let value : ℚ := info.shares * p
      let profit : ℚ := (p - info.buy_price) * info.shares
      (value + r.1, profit + r.2.1,
        ⟨t, info.shares, info.buy_price, p, value, profit⟩ :: r.2.2)

/-- The actions a signal can carry. -/
inductive Action where
  | Buy
  | Sell
  | Hold
  deriving DecidableEq, Repr

/-- The reason tags of the strings `generate_signals` returns:
`Buy (Golden Cross)`, `Sell (Death Cross)`, `Hold (Insufficient data)`,
`Hold (Invalid SMA)`, `Hold (Error)`, plain `Hold`. -/
inductive Reason where
  | GoldenCross
  | DeathCross
  | Insufficient
  | Invalid
  | Error
  | Neutral
  deriving DecidableEq, Repr

/-- A trade signal: the action together with its reason tag. -/
structure Signal where
  action : Action
  reason : Reason
  deriving DecidableEq, Repr

/-- Mean of the width-`w` window of `xs` ending at index `i`
(the value `rolling(window=w).mean()` puts at a row where it is defined). -/
def windowMean (w : Nat) (xs : List ℚ) (i : Nat) : ℚ :=
  ((xs.take (i + 1)).drop (i + 1 - w)).sum / (w : ℚ)

/-- pandas `Series.rolling(window=w).mean()` with the default
`min_periods=w`: entry `i` is the trailing mean when at least `w`
observations end there, and `NaN` (here `none`) otherwise. -/
def rollingMean (w : Nat) (xs : List ℚ) : List (Option ℚ) :=
  (List.range xs.length).map
    (fun i => if w ≤ i + 1 then some (windowMean w xs i) else none)

/-- pandas `.iloc[-1]` on a series that may hold `NaN`s.  (Only evaluated
in the source behind the `len ≥ 200` guard, so the series is nonempty.) -/
def ilocLast (s : List (Option ℚ)) : Option ℚ :=
  (s.get? (s.length - 1)).join

/-- pandas `.iloc[-2]` on a series that may hold `NaN`s.  (Only evaluated
in the source behind the `len ≥ 200` guard, so the index exists.) -/
def ilocPrev (s : List (Option ℚ)) : Option ℚ :=
  (s.get? (s.length - 2)).join

/-- IEEE `<=` with `NaN` (`none`) on either side comparing false, as in
the numpy comparisons of dashboard.py lines 114 and 116. -/
def nanLe (a b : Option ℚ) : Bool :=
  match a, b with
  | some x, some y => x ≤ y
  | _, _ => false

/-- IEEE `<` with `NaN` (`none`) on either side comparing false. -/
def nanLt (a b : Option ℚ) : Bool :=
  match a, b with
  | some x, some y => x < y
  | _, _ => false

/-- `StockPortfolio.generate_signals` (dashboard.py lines 94–122).  The
input is the outcome of `stock.history(period='1y')['Close']`: `.error`
when the fetch raised (caught by the `try`, line 120), `.ok closes`
otherwise.  Mirrors the source line by line: the `len < 200` guard, the
two rolling means, `iloc[-1]`/`iloc[-2]`, the `np.isnan` check on the two
latest values only, then the crossover `if/elif/else`. -/
def generate_signals (hist : Except String (List ℚ)) : Signal :=
  match hist with
  | .error _ => ⟨.Hold, .Error⟩
  | .ok closes =>
    if closes.length < 200 then ⟨.Hold, .Insufficient⟩
    else
      let sma50 := rollingMean 50 closes
      let sma200 := rollingMean 200 closes
      let sma50_latest := ilocLast sma50
      let sma200_latest := ilocLast sma200
      let sma50_prev := ilocPrev sma50
      let sma200_prev := ilocPrev sma200
      if sma50_latest.isNone || sma200_latest.isNone then ⟨.Hold, .Invalid⟩
      else if nanLe sma50_prev sma200_prev && nanLt sma200_latest sma50_latest then
        ⟨.Buy, .GoldenCross⟩
      else if nanLe sma200_prev sma50_prev && nanLt sma50_latest sma200_latest then
        ⟨.Sell, .DeathCross⟩
      else ⟨.Hold, .Neutral⟩

/-- An entry of the list `check_notifications` returns: either the
informational string for an empty portfolio or a per-ticker signal. -/
inductive Note where
  | info (msg : String)
  | sig (ticker : String) (s : Signal)
  deriving DecidableEq, Repr

/-- `StockPortfolio.check_notifications` (dashboard.py lines 124–131):
one informational entry for an empty portfolio, else one signal per held
ticker in dict (insertion) order.  `histOf` supplies each ticker's fetched
history, as for `generate_signals`. -/
def check_notifications (histOf : String → Except String (List ℚ))
    (h : Holdings) : List Note :=
  if h.isEmpty then [.info "Portfolio is empty, no notifications to check."]
  else h.map (fun p => .sig p.1 (generate_signals (histOf p.1)))

/-- Modelled from the spec (§4.2 `valuePortfolio`), for refinement against
`calculate_portfolio_value`: one `ValuationRow` per position whose current
price is available, in portfolio order, with
`marketValue = shares × currentPrice` and
`profitLoss = (currentPrice − buyPrice) × shares`; unavailable tickers are
skipped. -/
def specValuationRows (priceOf : String → Option ℚ) (h : Holdings) :
    List Row :=
  h.filterMap (fun q =>
    (priceOf q.1).map (fun p =>
      ⟨q.1, q.2.shares, q.2.buy_price, p,
        (q.2.shares : ℚ) * p, (p - q.2.buy_price) * (q.2.shares : ℚ)⟩))

/-- The spec's position invariant (§3): positive share count and positive
cost basis. -/
def goodPos (p : Position) : Prop := 0 < p.shares ∧ 0 < p.buy_price

/-- The portfolio invariant: every stored position is good. -/
def holdingsInv (h : Holdings) : Prop := ∀ q ∈ h, goodPos q.2

/-- One mutating operation on the portfolio store. -/
inductive Op where
  | add (ticker : String) (shares : Int) (buy_price : ℚ)
      (buy_date : Option String)
  | remove (ticker : String)

/-- Apply one operation, keeping only the resulting holdings (the boolean
outcome is irrelevant to the invariant). -/
def applyOp (today : String) (parseOk : String → Bool) (h : Holdings) :
    Op → Holdings
  | .add t s p d => (add_stock_run today parseOk h t s p d).1
  | .remove t => (remove_stock h t).1

/-- Apply a sequence of add/remove operations in order. -/
def applyOps (today : String) (parseOk : String → Bool) (h : Holdings) :
    List Op → Holdings
  | [] => h
  | op :: ops => applyOps today parseOk (applyOp today parseOk h op) ops

/-! Lemmas about the dict operations. -/

theorem mem_of_mem_dictInsert {h : Holdings} {k : String} {v : Position}
    {q : String × Position} (hq : q ∈ dictInsert h k v) :
    q = (k, v) ∨ q ∈ h := by
  induction h with
  | nil =>
    simp only [dictInsert, List.mem_singleton] at hq
    exact Or.inl hq
  | cons hd tl ih =>
    obtain ⟨k', v'⟩ := hd
    simp only [dictInsert] at hq
    by_cases hk : k' = k
    · rw [if_pos hk] at hq
      rcases List.mem_cons.mp hq with h1 | h1
      · exact Or.inl h1
      · exact Or.inr (List.mem_cons_of_mem _ h1)
    · rw [if_neg hk] at hq
      rcases List.mem_cons.mp hq with h1 | h1
      · exact Or.inr (h1 ▸ List.mem_cons_self _ _)
      · rcases ih h1 with h2 | h2
        · exact Or.inl h2
        · exact Or.inr (List.mem_cons_of_mem _ h2)

theorem mem_of_mem_dictRemove {h : Holdings} {k : String}
    {q : String × Position} (hq : q ∈ dictRemove h k) : q ∈ h := by
  induction h with
  | nil => simp [dictRemove] at hq
  | cons hd tl ih =>
    obtain ⟨k', v'⟩ := hd
    simp only [dictRemove] at hq
    by_cases hk : k' = k
    · rw [if_pos hk] at hq
      exact List.mem_cons_of_mem _ hq
    · rw [if_neg hk] at hq
      rcases List.mem_cons.mp hq with h1 | h1
      · exact h1 ▸ List.mem_cons_self _ _
      · exact List.mem_cons_of_mem _ (ih h1)

theorem keys_nodup_dictInsert {h : Holdings} {k : String} {v : Position}
    (hnd : (h.map Prod.fst).Nodup) :
    ((dictInsert h k v).map Prod.fst).Nodup := by
  induction h with
  | nil => simp [dictInsert]
  | cons hd tl ih =>
    obtain ⟨k', v'⟩ := hd
    simp only [List.map_cons, List.nodup_cons] at hnd
    obtain ⟨hk', hnd'⟩ := hnd
    simp only [dictInsert]
    by_cases hk : k' = k
    · rw [if_pos hk]
      simp only [List.map_cons, List.nodup_cons]
      exact ⟨hk ▸ hk', hnd'⟩
    · rw [if_neg hk]
      simp only [List.map_cons, List.nodup_cons]
      refine ⟨?_, ih hnd'⟩
      intro hmem
      rcases List.mem_map.mp hmem with ⟨q, hq, hq1⟩
      rcases mem_of_mem_dictInsert hq with h1 | h1
      · exact hk (by rw [h1] at hq1; exact hq1.symm)
      · exact hk' (hq1 ▸ List.mem_map_of_mem Prod.fst h1)

theorem filter_dictInsert_self {h : Holdings} {k : String} {v : Position}
    (hnd : (h.map Prod.fst).Nodup) :
    (dictInsert h k v).filter (fun q => q.1 = k) = [(k, v)] := by
  induction h with
  | nil => simp [dictInsert]
  | cons hd tl ih =>
    obtain ⟨k', v'⟩ := hd
    simp only [List.map_cons, List.nodup_cons] at hnd
    obtain ⟨hk', hnd'⟩ := hnd
    simp only [dictInsert]
    by_cases hk : k' = k
    · subst hk
      rw [if_pos rfl, List.filter_cons, if_pos (by simp)]
      have htl : tl.filter (fun q => q.1 = k') = [] := by
        rw [List.filter_eq_nil_iff]
        intro q hq
        simp only [decide_eq_true_eq]
        intro hq1
        exact hk' (hq1 ▸ List.mem_map_of_mem Prod.fst hq)
      rw [htl]
    · rw [if_neg hk, List.filter_cons, if_neg (by simpa using hk)]
      exact ih hnd'

/-- Claim C3: with `shares ≤ 0` the add fails with `InvalidShares`, with
positive shares but `buy_price ≤ 0` it fails with `InvalidPrice`, and on
every validation failure the holdings are returned unchanged with a
`false` outcome (no partial mutation). -/
theorem add_stock_validation_failures (today : String)
    (parseOk : String → Bool) (h : Holdings) (ticker : String)
    (shares : Int) (buy_price : ℚ) (buy_date : Option String) :
    (shares ≤ 0 →
      add_stock today parseOk h ticker shares buy_price buy_date =
        .error .InvalidShares) ∧
    (0 < shares → buy_price ≤ 0 →
      add_stock today parseOk h ticker shares buy_price buy_date =
        .error .InvalidPrice) ∧
    (∀ e : AddError,
      add_stock today parseOk h ticker shares buy_price buy_date =
        .error e →
      add_stock_run today parseOk h ticker shares buy_price buy_date =
        (h, false)) := by
  refine ⟨?_, ?_, ?_⟩
  · intro hs
    simp [add_stock, hs]
  · intro hs hp
    simp [add_stock, not_le.mpr hs, hp]
  · intro e he
    simp [add_stock_run, he]

/-- Witness for C3 at concrete inputs: shares `0` is rejected as
`InvalidShares`, price `0` as `InvalidPrice`, and the holdings come back
untouched with outcome `false`. -/
theorem add_stock_validation_failures_witness :
    add_stock "2025-10-12" (fun _ => true)
        [("AAPL", ⟨10, 150, "2025-08-01"⟩)] "X" 0 150 none =
      .error .InvalidShares ∧
    add_stock "2025-10-12" (fun _ => true)
        [("AAPL", ⟨10, 150, "2025-08-01"⟩)] "X" 1 0 none =
      .error .InvalidPrice ∧
    add_stock_run "2025-10-12" (fun _ => true)
        [("AAPL", ⟨10, 150, "2025-08-01"⟩)] "X" 0 150 none =
      ([("AAPL", ⟨10, 150, "2025-08-01"⟩)], false) := by
  obtain ⟨h1, h2, h3⟩ := add_stock_validation_failures "2025-10-12"
    (fun _ => true) [("AAPL", ⟨10, 150, "2025-08-01"⟩)] "X" 0 150 none
  obtain ⟨g1, g2, g3⟩ := add_stock_validation_failures "2025-10-12"
    (fun _ => true) [("AAPL", ⟨10, 150, "2025-08-01"⟩)] "X" 1 0 none
  exact ⟨h1 le_rfl, g2 (by norm_num) le_rfl,
    h3 .InvalidShares (h1 le_rfl)⟩

/-- Claim C4: for valid inputs the add succeeds, the holdings afterwards
contain exactly one entry for the normalized (uppercased, trimmed) ticker
holding exactly the given values, and adding the same ticker again
replaces the whole position. -/
theorem add_stock_upsert_normalized (today : String)
    (parseOk : String → Bool) (h : Holdings) (ticker : String)
    (shares : Int) (buy_price : ℚ) (hnd : (h.map Prod.fst).Nodup)
    (hs : 0 < shares) (hp : 0 < buy_price) :
    add_stock_run today parseOk h ticker shares buy_price none =
      (dictInsert h ticker.toUpper.trim ⟨shares, buy_price, today⟩, true) ∧
    (dictInsert h ticker.toUpper.trim
        ⟨shares, buy_price, today⟩).filter
        (fun q => q.1 = ticker.toUpper.trim) =
      [(ticker.toUpper.trim, ⟨shares, buy_price, today⟩)] ∧
    ∀ shares2 : Int, ∀ buy_price2 : ℚ, 0 < shares2 → 0 < buy_price2 →
      add_stock_run today parseOk
          (dictInsert h ticker.toUpper.trim ⟨shares, buy_price, today⟩)
          ticker shares2 buy_price2 none =
        (dictInsert
          (dictInsert h ticker.toUpper.trim ⟨shares, buy_price, today⟩)
          ticker.toUpper.trim ⟨shares2, buy_price2, today⟩, true) ∧
      (dictInsert
          (dictInsert h ticker.toUpper.trim ⟨shares, buy_price, today⟩)
          ticker.toUpper.trim ⟨shares2, buy_price2, today⟩).filter
          (fun q => q.1 = ticker.toUpper.trim) =
        [(ticker.toUpper.trim, ⟨shares2, buy_price2, today⟩)] := by
  refine ⟨?_, filter_dictInsert_self hnd, ?_⟩
  · simp [add_stock_run, add_stock, not_le.mpr hs, not_le.mpr hp]
  · intro shares2 buy_price2 hs2 hp2
    refine ⟨?_, filter_dictInsert_self (keys_nodup_dictInsert hnd)⟩
    simp [add_stock_run, add_stock, not_le.mpr hs2, not_le.mpr hp2]

/-- Witness for C4: adding `"aapl"` with `10` shares at `150` into an
empty portfolio succeeds, stores the position under the normalized
ticker, and re-adding with new values replaces it wholly. -/
theorem add_stock_upsert_normalized_witness :
    add_stock_run "2025-10-12" (fun _ => true) [] "aapl" 10 150 none =
      (dictInsert [] "aapl".toUpper.trim ⟨10, 150, "2025-10-12"⟩, true) ∧
    (dictInsert [] "aapl".toUpper.trim ⟨10, 150, "2025-10-12"⟩).filter
        (fun q => q.1 = "aapl".toUpper.trim) =
      [("aapl".toUpper.trim, ⟨10, 150, "2025-10-12"⟩)] ∧
    add_stock_run "2025-10-12" (fun _ => true)
        (dictInsert [] "aapl".toUpper.trim ⟨10, 150, "2025-10-12"⟩)
        "aapl" 7 99 none =
      (dictInsert (dictInsert [] "aapl".toUpper.trim ⟨10, 150, "2025-10-12"⟩)
        "aapl".toUpper.trim ⟨7, 99, "2025-10-12"⟩, true) ∧
    (dictInsert (dictInsert [] "aapl".toUpper.trim ⟨10, 150, "2025-10-12"⟩)
        "aapl".toUpper.trim ⟨7, 99, "2025-10-12"⟩).filter
        (fun q => q.1 = "aapl".toUpper.trim) =
      [("aapl".toUpper.trim, ⟨7, 99, "2025-10-12"⟩)] := by
  obtain ⟨h1, h2, h3⟩ := add_stock_upsert_normalized "2025-10-12"
    (fun _ => true) [] "aapl" 10 150 (by simp) (by norm_num) (by norm_num)
  obtain ⟨g1, g2⟩ := h3 7 99 (by norm_num) (by norm_num)
  exact ⟨h1, h2, g1, g2⟩

/-- Every position an `add_stock` success stores is the normalized-key
insert of a position with the validated (positive) values. -/
theorem add_stock_ok {today : String} {parseOk : String → Bool}
    {h : Holdings} {ticker : String} {shares : Int} {buy_price : ℚ}
    {buy_date : Option String} {h' : Holdings}
    (hok : add_stock today parseOk h ticker shares buy_price buy_date =
      .ok h') :
    0 < shares ∧ 0 < buy_price ∧
      ∃ d, h' = dictInsert h ticker.toUpper.trim
        ⟨shares, buy_price, d⟩ := by
  unfold add_stock at hok
  by_cases hs : shares ≤ 0
  · simp [hs] at hok
  · by_cases hp : buy_price ≤ 0
    · simp [hs, hp] at hok
    · refine ⟨lt_of_not_le hs, lt_of_not_le hp, ?_⟩
      cases buy_date with
      | none =>
        simp only [hs, hp, if_false, if_neg] at hok
        simp at hok
        exact ⟨today, hok.symm⟩
      | some d =>
        by_cases hd : parseOk d
        · simp [hs, hp, hd] at hok
          exact ⟨d, hok.symm⟩
        · simp [hs, hp, hd] at hok

/-- One add/remove step preserves the position invariant. -/
theorem holdingsInv_applyOp (today : String) (parseOk : String → Bool)
    (h : Holdings) (op : Op) (hinv : holdingsInv h) :
    holdingsInv (applyOp today parseOk h op) := by
  cases op with
  | add t s p d =>
    simp only [applyOp, add_stock_run]
    cases hcase : add_stock today parseOk h t s p d with
    | error e => exact hinv
    | ok h' =>
      obtain ⟨hs, hp, d', rfl⟩ := add_stock_ok hcase
      intro q hq
      rcases mem_of_mem_dictInsert hq with h1 | h1
      · rw [h1]
        exact ⟨hs, hp⟩
      · exact hinv q h1
  | remove t =>
    simp only [applyOp, remove_stock]
    by_cases hm : dictMem h t.toUpper.trim
    · rw [if_pos hm]
      intro q hq
      exact hinv q (mem_of_mem_dictRemove hq)
    · rw [if_neg hm]
      exact hinv

/-- Claim C7: starting from any portfolio satisfying the invariant
`shares > 0 ∧ buyPrice > 0`, every sequence of add/remove operations
preserves it. -/
theorem portfolio_invariant_preserved (today : String)
    (parseOk : String → Bool) (ops : List Op) (h : Holdings)
    (hinv : holdingsInv h) :
    holdingsInv (applyOps today parseOk h ops) := by
  induction ops generalizing h with
  | nil => exact hinv
  | cons op ops ih =>
    simp only [applyOps]
    exact ih _ (holdingsInv_applyOp today parseOk h op hinv)

/-- Witness for C7: a concrete operation sequence (a valid add, an
invalid add, a remove) applied to the empty portfolio keeps the
invariant. -/
theorem portfolio_invariant_preserved_witness :
    holdingsInv (applyOps "2025-10-12" (fun _ => true) []
      [Op.add "aapl" 10 150 none, Op.add "msft" (-3) 5 none,
        Op.remove "AAPL"]) := by
  exact portfolio_invariant_preserved "2025-10-12" (fun _ => true) _ []
    (by intro q hq; simp at hq)

/-- Claim C5: `calculate_portfolio_value` returns exactly the spec's
valuation rows (positions with an available price, in order, with
`value = shares × price` and `profit = (price − buyPrice) × shares`)
together with their sums as the two totals; the empty portfolio yields
zero totals and no rows; and the spec's concrete example
(`shares=10, buyPrice=100, price=120`) yields `value=1200, profit=200`. -/
theorem calculate_portfolio_value_spec (priceOf : String → Option ℚ)
    (h : Holdings) :
    calculate_portfolio_value priceOf h =
      (((specValuationRows priceOf h).map Row.value).sum,
       ((specValuationRows priceOf h).map Row.profit).sum,
       specValuationRows priceOf h) ∧
    calculate_portfolio_value priceOf [] = (0, 0, []) ∧
    calculate_portfolio_value (fun _ => some 120)
        [("AAPL", ⟨10, 100, "2025-08-01"⟩)] =
      (1200, 200, [⟨"AAPL", 10, 100, 120, 1200, 200⟩]) := by
  refine ⟨?_, rfl, ?_⟩
  · induction h with
    | nil => simp [calculate_portfolio_value, specValuationRows]
    | cons hd tl ih =>
      obtain ⟨t, info⟩ := hd
      cases hp : priceOf t with
      | none =>
        simp only [calculate_portfolio_value, hp]
        simpa [specValuationRows, List.filterMap_cons, hp] using ih
      | some p =>
        simp only [calculate_portfolio_value, hp]
        rw [ih]
        simp [specValuationRows, List.filterMap_cons, hp]
  · simp [calculate_portfolio_value, specValuationRows]
    norm_num

/-- Claim C10: the profit total always equals the value total minus the
cost basis (`shares × buyPrice`) summed over exactly the positions whose
price was available. -/
theorem profit_eq_value_sub_cost (priceOf : String → Option ℚ)
    (h : Holdings) :
    (calculate_portfolio_value priceOf h).2.1 =
      (calculate_portfolio_value priceOf h).1 -
        ((h.filter (fun q => (priceOf q.1).isSome)).map
          (fun q => (q.2.shares : ℚ) * q.2.buy_price)).sum := by
  induction h with
  | nil => simp [calculate_portfolio_value]
  | cons hd tl ih =>
    obtain ⟨t, info⟩ := hd
    cases hp : priceOf t with
    | none =>
      simp only [calculate_portfolio_value, hp, List.filter_cons]
      simpa [hp] using ih
    | some p =>
      simp only [calculate_portfolio_value, hp, List.filter_cons,
        Option.isSome_some, decide_True, if_true, List.map_cons,
        List.sum_cons]
      rw [ih]
      ring

/-! Lemmas about the rolling means and the NaN-aware comparisons. -/

theorem length_rollingMean (w : Nat) (xs : List ℚ) :
    (rollingMean w xs).length = xs.length := by
  simp [rollingMean]

theorem rollingMean_get? (w : Nat) (xs : List ℚ) (i : Nat)
    (hi : i < xs.length) :
    (rollingMean w xs).get? i =
      some (if w ≤ i + 1 then some (windowMean w xs i) else none) := by
  simp [rollingMean, List.get?_eq_getElem?, List.getElem?_map,
    List.getElem?_range hi]

theorem ilocLast_rollingMean (w : Nat) (xs : List ℚ) (h1 : 1 ≤ xs.length)
    (hw : w ≤ xs.length) :
    ilocLast (rollingMean w xs) =
      some (windowMean w xs (xs.length - 1)) := by
  unfold ilocLast
  rw [length_rollingMean, rollingMean_get? w xs _ (by omega)]
  have hcond : w ≤ xs.length - 1 + 1 := by omega
  simp [hcond]

theorem ilocPrev_rollingMean (w : Nat) (xs : List ℚ) (h2 : 2 ≤ xs.length)
    (hw : w + 1 ≤ xs.length) :
    ilocPrev (rollingMean w xs) =
      some (windowMean w xs (xs.length - 2)) := by
  unfold ilocPrev
  rw [length_rollingMean, rollingMean_get? w xs _ (by omega)]
  have hcond : w ≤ xs.length - 2 + 1 := by omega
  simp [hcond]

theorem ilocPrev_rollingMean_none (w : Nat) (xs : List ℚ)
    (h2 : 2 ≤ xs.length) (hw : xs.length < w + 1) :
    ilocPrev (rollingMean w xs) = none := by
  unfold ilocPrev
  rw [length_rollingMean, rollingMean_get? w xs _ (by omega)]
  have hcond : ¬ w ≤ xs.length - 2 + 1 := by omega
  simp [hcond]

theorem windowMean_replicate (w n : Nat) (c : ℚ) (i : Nat) (hw : 0 < w)
    (hwi : w ≤ i + 1) (hi : i < n) :
    windowMean w (List.replicate n c) i = c := by
  unfold windowMean
  rw [List.take_replicate, List.drop_replicate]
  have hmin : min (i + 1) n = i + 1 := by omega
  rw [hmin]
  have hcount : i + 1 - (i + 1 - w) = w := by omega
  rw [hcount, List.sum_replicate, nsmul_eq_mul]
  exact mul_div_cancel_left₀ c (Nat.cast_ne_zero.mpr (by omega))

theorem nanLe_none_left (b : Option ℚ) : nanLe none b = false := by
  cases b <;> rfl

theorem nanLe_none_right (a : Option ℚ) : nanLe a none = false := by
  cases a <;> rfl

/-- Claim C6: `generate_signals` maps every failed history fetch (the
caught exception) to a Hold signal tagged Error; it is a total function,
so no fault reaches the caller. -/
theorem generate_signals_error_branch (e : String) :
    generate_signals (.error e) = ⟨.Hold, .Error⟩ := rfl

/-- Claim C2: any history of fewer than 200 observations yields
Hold/Insufficient. -/
theorem insufficient_history_holds (closes : List ℚ)
    (hlen : closes.length < 200) :
    generate_signals (.ok closes) = ⟨.Hold, .Insufficient⟩ := by
  simp [generate_signals, hlen]

/-- Witness for C2 at a concrete history of length 199. -/
theorem insufficient_history_holds_witness :
    generate_signals (.ok (List.replicate 199 (1 : ℚ))) =
      ⟨.Hold, .Insufficient⟩ :=
  insufficient_history_holds _
    (by simp only [List.length_replicate]; norm_num)

/-- Claim C9: on a history of exactly 200 observations the length guard
passes and the latest SMA200 is defined, but the previous-point SMA200 is
NaN; the NaN check covers only the latest values, NaN comparisons are
false, so both crossover branches fall through and the result is always
Hold (never Buy or Sell). -/
theorem exact200_always_hold (closes : List ℚ)
    (hlen : closes.length = 200) :
    ilocPrev (rollingMean 200 closes) = none ∧
    (ilocLast (rollingMean 200 closes)).isSome = true ∧
    generate_signals (.ok closes) = ⟨.Hold, .Neutral⟩ := by
  have hprev : ilocPrev (rollingMean 200 closes) = none :=
    ilocPrev_rollingMean_none 200 closes (by omega) (by omega)
  have hlast : ilocLast (rollingMean 200 closes) =
      some (windowMean 200 closes (closes.length - 1)) :=
    ilocLast_rollingMean 200 closes (by omega) (by omega)
  have hlast50 : ilocLast (rollingMean 50 closes) =
      some (windowMean 50 closes (closes.length - 1)) :=
    ilocLast_rollingMean 50 closes (by omega) (by omega)
  refine ⟨hprev, by rw [hlast]; rfl, ?_⟩
  simp only [generate_signals]
  rw [if_neg (by omega), hlast50, hlast, hprev]
  simp [nanLe_none_left, nanLe_none_right]

/-- Witness for C9 at a concrete constant history of length 200. -/
theorem exact200_always_hold_witness :
    ilocPrev (rollingMean 200 (List.replicate 200 (1 : ℚ))) = none ∧
    (ilocLast (rollingMean 200 (List.replicate 200 (1 : ℚ)))).isSome =
      true ∧
    generate_signals (.ok (List.replicate 200 (1 : ℚ))) =
      ⟨.Hold, .Neutral⟩ :=
  exact200_always_hold _ (by simp only [List.length_replicate])

/-- Claim C1: whenever all four SMA values at the two most recent points
are defined (in particular the latest two, as the claim requires), the
result is exactly the crossover rule: Buy/GoldenCross when
`prev SMA50 ≤ prev SMA200` and `latest SMA50 > latest SMA200`, else
Sell/DeathCross when `prev SMA50 ≥ prev SMA200` and
`latest SMA50 < latest SMA200`, else Hold/Neutral — so a tie at the
latest point gives Hold, and equal previous values with a higher latest
SMA50 take the Buy branch (checked first). -/
theorem crossover_rule_on_defined_smas (closes : List ℚ)
    (p50 p200 l50 l200 : ℚ) (hlen : 200 ≤ closes.length)
    (hp50 : ilocPrev (rollingMean 50 closes) = some p50)
    (hp200 : ilocPrev (rollingMean 200 closes) = some p200)
    (hl50 : ilocLast (rollingMean 50 closes) = some l50)
    (hl200 : ilocLast (rollingMean 200 closes) = some l200) :
    generate_signals (.ok closes) =
      if p50 ≤ p200 ∧ l200 < l50 then ⟨.Buy, .GoldenCross⟩
      else if p200 ≤ p50 ∧ l50 < l200 then ⟨.Sell, .DeathCross⟩
      else ⟨.Hold, .Neutral⟩ := by
  simp only [generate_signals]
  rw [if_neg (by omega), hl50, hl200, hp50, hp200]
  simp [nanLe, nanLt, Bool.and_eq_true, decide_eq_true_eq]

/-- Witness for C1 at a concrete constant history of length 201 (all four
SMA values defined and equal, so the result is Hold/Neutral). -/
theorem crossover_rule_on_defined_smas_witness :
    generate_signals (.ok (List.replicate 201 (100 : ℚ))) =
      ⟨.Hold, .Neutral⟩ := by
  have hlen : (List.replicate 201 (100 : ℚ)).length = 201 := by
    simp only [List.length_replicate]
  have e1 : (201 : Nat) - 1 = 200 := by norm_num
  have e2 : (201 : Nat) - 2 = 199 := by norm_num
  have hp50 : ilocPrev (rollingMean 50 (List.replicate 201 (100 : ℚ))) =
      some 100 := by
    rw [ilocPrev_rollingMean 50 _ (by simp only [List.length_replicate]; norm_num) (by simp only [List.length_replicate]; norm_num),
      hlen, e2,
      windowMean_replicate 50 201 100 199 (by norm_num) (by norm_num)
        (by norm_num)]
  have hp200 : ilocPrev (rollingMean 200 (List.replicate 201 (100 : ℚ))) =
      some 100 := by
    rw [ilocPrev_rollingMean 200 _ (by simp only [List.length_replicate]; norm_num)
      (by simp only [List.length_replicate]; norm_num), hlen, e2,
      windowMean_replicate 200 201 100 199 (by norm_num) (by norm_num)
        (by norm_num)]
  have hl50 : ilocLast (rollingMean 50 (List.replicate 201 (100 : ℚ))) =
      some 100 := by
    rw [ilocLast_rollingMean 50 _ (by simp only [List.length_replicate]; norm_num)
      (by simp only [List.length_replicate]; norm_num), hlen, e1,
      windowMean_replicate 50 201 100 200 (by norm_num) (by norm_num)
        (by norm_num)]
  have hl200 : ilocLast (rollingMean 200 (List.replicate 201 (100 : ℚ))) =
      some 100 := by
    rw [ilocLast_rollingMean 200 _ (by simp only [List.length_replicate]; norm_num)
      (by simp only [List.length_replicate]; norm_num), hlen, e1,
      windowMean_replicate 200 201 100 200 (by norm_num) (by norm_num)
        (by norm_num)]
  rw [crossover_rule_on_defined_smas (List.replicate 201 (100 : ℚ))
    100 100 100 100 (by simp only [List.length_replicate]; norm_num) hp50 hp200 hl50 hl200]
  norm_num

/-- Claim C8: `check_notifications` on the empty portfolio is exactly the
one informational entry, and on a non-empty portfolio it is exactly one
signal per held ticker in `list_positions` order. -/
theorem check_notifications_shape
    (histOf : String → Except String (List ℚ)) (h : Holdings) :
    check_notifications histOf [] =
      [.info "Portfolio is empty, no notifications to check."] ∧
    (h ≠ [] → check_notifications histOf h =
      (list_positions h).map
        (fun p => .sig p.1 (generate_signals (histOf p.1)))) := by
  refine ⟨rfl, ?_⟩
  intro hne
  unfold check_notifications
  rw [if_neg (by simpa [List.isEmpty_iff] using hne)]
  rfl

/-- Witness for C8: with a one-position portfolio and a failing history
source, the notifications are exactly the one per-ticker signal; the
empty portfolio gives exactly the informational entry. -/
theorem check_notifications_shape_witness :
    check_notifications (fun _ => .error "down") [] =
      [.info "Portfolio is empty, no notifications to check."] ∧
    check_notifications (fun _ => .error "down")
        [("AAPL", ⟨10, 150, "2025-08-01"⟩)] =
      [.sig "AAPL" ⟨.Hold, .Error⟩] := by
  obtain ⟨h1, h2⟩ := check_notifications_shape (fun _ => .error "down")
    [("AAPL", ⟨10, 150, "2025-08-01"⟩)]
  exact ⟨h1, by rw [h2 (by simp)]; rfl⟩

end Dashboard
